import Mathlib

/-!
Verification of the real-time private-messaging core of the `nsql` backend.

The definitions below are a shallow embedding of the Python source:

* `app/routers/chat.py` — the `ConnectionManager` registry
  (`connect`, `disconnect`, `broadcast`), the room-key derivation, the
  friendship gate of `private_websocket_endpoint`, and the
  `receive_messages` inbound loop with its persist-then-publish order.
* `app/routers/friends.py` — `get_conversation` (history retrieval with
  its mark-as-read side effect).
* `app/models/friendship.py` — the `Friendship` and `PrivateMessage`
  records, including the 1..2000 character bound on a message body.

WebSocket objects are identified by a `Nat` (Python object identity);
user ids, usernames and rooms are `String`s; Python dicts are modelled
as association lists with unique keys; timestamps are `Nat`s.
-/

set_option autoImplicit false

namespace NSql

/-- One element of a member list of a room in `ConnectionManager`:
the Python tuple `(user_id, websocket)` from `chat.py` line 34,
with the object identity of the websocket modelled as a `Nat`. -/
structure Entry where
  uid : String
  ws : Nat
deriving DecidableEq

/-- The `ConnectionManager.active_connections` dict
`{room: [(user_id, websocket)]}` (`chat.py` line 19), modelled as an
association list from room name to member list. -/
abbrev Registry := List (String × List Entry)

/-- Dict lookup: `self.active_connections[room]` when present. -/
def lookupRoom : Registry → String → Option (List Entry)
  | [], _ => none
  | p :: ps, room => if p.1 = room then some p.2 else lookupRoom ps room

/-- Dict membership test: `room in self.active_connections`. -/
def containsRoom (reg : Registry) (room : String) : Bool :=
  (lookupRoom reg room).isSome

/-- Dict assignment `self.active_connections[room] = ms`: replaces the
value under an existing key, appends a fresh key at the end. -/
def setRoom : Registry → String → List Entry → Registry
  | [], room, ms => [(room, ms)]
  | p :: ps, room, ms =>
    if p.1 = room then (room, ms) :: ps
    else p :: setRoom ps room ms

/-- Dict deletion `del self.active_connections[room]`. -/
def delRoom : Registry → String → Registry
  | [], _ => []
  | p :: ps, room =>
    if p.1 = room then delRoom ps room else p :: delRoom ps room

/-- Embeds `ConnectionManager.connect` (`chat.py` lines 21-35), minus the
transport accept: ensure the room key exists, no-op if this exact
websocket is already a member, otherwise append `(user_id, websocket)`. -/
def connect (reg : Registry) (room uid : String) (ws : Nat) : Registry :=
  let reg1 := if containsRoom reg room then reg else setRoom reg room []
  let ms := (lookupRoom reg1 room).getD []
  if ms.any (fun e => e.ws == ws) then reg1
  else setRoom reg1 room (ms ++ [⟨uid, ws⟩])

/-- Embeds `ConnectionManager.disconnect` (`chat.py` lines 37-47): filter the
websocket out of the member list of the room and delete the room key when
the list becomes empty. -/
def disconnect (reg : Registry) (ws : Nat) (room : String) : Registry :=
  match lookupRoom reg room with
  | none => reg
  | some ms =>
    let ms1 := ms.filter (fun e => e.ws != ws)
    if ms1.isEmpty then delRoom reg room else setRoom reg room ms1

/-- Embeds `ConnectionManager.broadcast` (`chat.py` lines 49-65). `failing ws`
says whether `websocket.send_json` raises for that websocket. Returns
the Python return value (always `None`: the function has no `return`
statement with a value), the registry after the failed members have
been disconnected, and the list of websockets that received the
payload successfully. -/
def broadcast (reg : Registry) (room : String) (failing : Nat → Bool) :
    Option Nat × Registry × List Nat :=
  match lookupRoom reg room with
  | none => (none, reg, [])
  | some ms =>
    let delivered := (ms.filter (fun e => !(failing e.ws))).map (·.ws)
    let toRemove := (ms.filter (fun e => failing e.ws)).map (·.ws)
    (none, toRemove.foldl (fun r w => disconnect r w room) reg, delivered)

/-- The Python lexicographic strict comparison `a < b` on strings,
modelled on character lists: element-wise by code point, a proper
possibly-shorter list comparing less when it is a strict prefix. -/
def lexLt : List Char → List Char → Bool
  | _, [] => false
  | [], _ :: _ => true
  | a :: as, b :: bs => if a < b then true else if b < a then false else lexLt as bs

/-- Python `min(a, b)` on strings: keeps the first argument unless the
second is strictly smaller. -/
def pyMin (a b : List Char) : List Char := if lexLt b a then b else a

/-- Python `max(a, b)` on strings: keeps the first argument unless the
second is strictly larger. -/
def pyMax (a b : List Char) : List Char := if lexLt a b then b else a

/-- The room key of `chat.py` line 126:
`f"private:{min(str(user.id), str(friend.id))}:{max(str(user.id), str(friend.id))}"`. -/
def roomKey (a b : List Char) : List Char :=
  "private:".toList ++ pyMin a b ++ ':' :: pyMax a b

/-- A `Friendship` document (`app/models/friendship.py` lines 7-27):
the requesting user, the receiving user, and a status string among
`pending`, `accepted`, `rejected`. -/
structure Friendship where
  user_id : String
  friend_id : String
  status : String
deriving DecidableEq

/-- A user-directory entry: username plus the stable id the chat code
uses as `str(user.id)`. -/
structure UserRec where
  username : String
  id : String
deriving DecidableEq

/-- Embeds `User.find_one(User.username == name)`. -/
def findUser (users : List UserRec) (name : String) : Option UserRec :=
  users.find? (fun u => u.username == name)

/-- The `Friendship.find_one` query of `chat.py` lines 112-119: does a
friendship row with status `accepted` exist between the two ids, in
either orientation? -/
def friendshipAccepted (recs : List Friendship) (uid fid : String) : Bool :=
  recs.any (fun r =>
    (r.user_id == uid && r.friend_id == fid && r.status == "accepted") ||
    (r.user_id == fid && r.friend_id == uid && r.status == "accepted"))

/-- Outcome of the session-establishment prologue of
`private_websocket_endpoint` (`chat.py` lines 90-135): the four close
reasons, or admission into a room. -/
inductive GateResult where
  | invalidToken
  | userNotFound
  | friendNotFound
  | notFriends
  | admitted (room : String)
deriving DecidableEq

/-- The session-establishment prologue of `private_websocket_endpoint`
(`chat.py` lines 90-135): decode the token (`tokenSub` is
`decode_access_token(token).get("sub")`, `none` when decoding fails or
the subject claim is absent), resolve both usernames, require an
accepted friendship in either orientation, then derive the room key
and join the registry. On every failure the websocket is closed before
the registry is touched. -/
def establishSession (tokenSub : Option String) (users : List UserRec)
    (recs : List Friendship) (friendUsername : String) (reg : Registry)
    (ws : Nat) : GateResult × Registry :=
  match tokenSub with
  | none => (.invalidToken, reg)
  | some username =>
    match findUser users username with
    | none => (.userNotFound, reg)
    | some user =>
      match findUser users friendUsername with
      | none => (.friendNotFound, reg)
      | some friend =>
        if friendshipAccepted recs user.id friend.id then
          let room := String.mk (roomKey user.id.toList friend.id.toList)
          (.admitted room, connect reg room user.id ws)
        else (.notFriends, reg)

/-- The invariant of C8: every room key present in the registry maps to
a non-empty member list. -/
def noEmptyRooms (reg : Registry) : Prop := ∀ p ∈ reg, p.2 ≠ []

/-- Registry states reachable from the empty initial state through the
three `ConnectionManager` operations. -/
inductive Reachable : Registry → Prop where
  | init : Reachable []
  | step_connect : ∀ {reg : Registry} (room uid : String) (ws : Nat),
      Reachable reg → Reachable (connect reg room uid ws)
  | step_disconnect : ∀ {reg : Registry} (ws : Nat) (room : String),
      Reachable reg → Reachable (disconnect reg ws room)
  | step_broadcast : ∀ {reg : Registry} (room : String) (failing : Nat → Bool),
      Reachable reg → Reachable ((broadcast reg room failing).2.1)

/-- Environment of one iteration of the `receive_messages` loop
(`chat.py` lines 145-184): what the awaited transport frame and the
two external calls would do on this iteration. -/
structure Frame where
  /-- Whether `websocket.receive_text()` raises `WebSocketDisconnect`. -/
  disconnected : Bool
  /-- Whether `json.loads(data)` succeeds. -/
  parseOk : Bool
  /-- The body text, the result of `message_data.get("content", "")`. -/
  content : String
  /-- Whether `new_message.insert()` completes (persistence available). -/
  insertOk : Bool
  /-- Whether `redis_client.publish(...)` succeeds. -/
  publishOk : Bool
deriving DecidableEq

/-- The pydantic bound on `PrivateMessage.message`
(`app/models/friendship.py` line 38): `min_length=1, max_length=2000`,
checked when the document object is constructed. -/
def validLength (content : String) : Bool :=
  decide (1 ≤ content.length) && decide (content.length ≤ 2000)

/-- Externally visible effects of the receive loop: a completed
`insert` of the private message, and the publish of its payload to the
backbone topic. -/
inductive Ev where
  | persistMsg (content : String)
  | publishMsg (content : String)
deriving DecidableEq

/-- One iteration of `receive_messages` (`chat.py` lines 147-184): the
effects performed and whether the `while` loop continues. A
`WebSocketDisconnect` from `receive_text` and every other exception —
JSON parse error, pydantic validation error on the 1..2000 bound,
failed insert, failed publish — is caught by one of the two `except`
arms, and both arms `break`; the loop never propagates an exception. -/
def receiveStep (f : Frame) : List Ev × Bool :=
  if f.disconnected then ([], false)
  else if !f.parseOk then ([], false)
  else if !(validLength f.content) then ([], false)
  else if !f.insertOk then ([], false)
  else if !f.publishOk then ([Ev.persistMsg f.content], false)
  else ([Ev.persistMsg f.content, Ev.publishMsg f.content], true)

/-- The loop of `receive_messages` over a queue of iteration
environments: the concatenated effect trace, cut off at the first
iteration that breaks. -/
def receiveLoop : List Frame → List Ev
  | [] => []
  | f :: fs => if (receiveStep f).2 then (receiveStep f).1 ++ receiveLoop fs
               else (receiveStep f).1

/-- How the `try` body of `private_websocket_endpoint` (`chat.py`
lines 137-203) can end. Both duties catch every exception raised
inside their loop bodies and `break` (lines 180-184 and 195-197), so
`asyncio.gather` returns normally once both loops have broken; an
exception escapes the `try` body only before or around the duties —
in particular from the welcome frame send of lines 139-143.
`stillRunning` is the state in which at least one duty has not
finished: the handler is suspended inside `gather`. -/
inductive TryOutcome where
  | stillRunning
  | bothLoopsBroke
  | wsDisconnectRaised
  | otherExceptionRaised
deriving DecidableEq

/-- The teardown actions appearing in `chat.py` lines 205-213. -/
inductive TAction where
  | leaveRoom
  | unsubscribeTopic
  | closePubsub
deriving DecidableEq

/-- The teardown the handler performs for each way the `try` body
ends: the `except` arms (lines 205-210) call `manager.disconnect`,
the `finally` arm (lines 211-213) unsubscribes from the topic and
closes the pub/sub connection; while a duty is still running the
handler is suspended inside `gather` and runs none of them. -/
def handlerTeardown : TryOutcome → List TAction
  | .stillRunning => []
  | .bothLoopsBroke => [.unsubscribeTopic, .closePubsub]
  | .wsDisconnectRaised => [.leaveRoom, .unsubscribeTopic, .closePubsub]
  | .otherExceptionRaised => [.leaveRoom, .unsubscribeTopic, .closePubsub]

/-- A persisted `PrivateMessage` document
(`app/models/friendship.py` lines 30-54), with the Mongo object id and
the creation timestamp modelled as naturals. -/
structure StoredMessage where
  id : Nat
  sender_id : String
  sender_username : String
  receiver_id : String
  receiver_username : String
  message : String
  created_at : Nat
  read : Bool
deriving DecidableEq

/-- The `$or` filter of `get_conversation` (`friends.py` lines
271-278): the message belongs to the conversation between the two
ids, in either direction. -/
def betweenUsers (m : StoredMessage) (uid fid : String) : Bool :=
  (m.sender_id == uid && m.receiver_id == fid) ||
  (m.sender_id == fid && m.receiver_id == uid)

/-- The mark applied by `get_conversation` (`friends.py` lines
280-284) to one fetched message: set the read flag when the message
is addressed to the caller and not yet read. -/
def markRead (uid : String) (m : StoredMessage) : StoredMessage :=
  if m.receiver_id == uid && !m.read then { m with read := true } else m

/-- Embeds `get_conversation` (`friends.py` lines 261-298) against an
in-memory store: fetch both directions of the conversation sorted by
`created_at` ascending, mark every fetched message addressed to the
caller as read (each change saved back to the store), and return the
fetched messages with their updated read flags. Result:
`(returned messages, updated store)`. -/
def getConversation (callerId friendId : String)
    (store : List StoredMessage) : List StoredMessage × List StoredMessage :=
  let fetched := List.insertionSort (fun x y => x.created_at ≤ y.created_at)
      (store.filter (fun m => betweenUsers m callerId friendId))
  (fetched.map (markRead callerId),
   store.map (fun m =>
     if betweenUsers m callerId friendId then markRead callerId m else m))

instance : IsTotal StoredMessage (fun x y => x.created_at ≤ y.created_at) :=
  ⟨fun a b => Nat.le_total a.created_at b.created_at⟩

instance : IsTrans StoredMessage (fun x y => x.created_at ≤ y.created_at) :=
  ⟨fun _ _ _ h1 h2 => le_trans h1 h2⟩

theorem lookupRoom_setRoom_self (reg : Registry) (room : String)
    (ms : List Entry) : lookupRoom (setRoom reg room ms) room = some ms := by
  induction reg with
  | nil => simp [setRoom, lookupRoom]
  | cons p ps ih =>
    by_cases h : p.1 = room <;> simp [setRoom, lookupRoom, h, ih]

theorem lookupRoom_setRoom_other (reg : Registry) (room room2 : String)
    (ms : List Entry) (h : room2 ≠ room) :
    lookupRoom (setRoom reg room ms) room2 = lookupRoom reg room2 := by
  induction reg with
  | nil => simp [setRoom, lookupRoom, Ne.symm h]
  | cons p ps ih =>
    by_cases hp : p.1 = room
    · subst hp
      simp [setRoom, lookupRoom, Ne.symm h, ih]
    · by_cases hp2 : p.1 = room2 <;> simp [setRoom, lookupRoom, hp, hp2, h, ih]

theorem lookupRoom_delRoom_self (reg : Registry) (room : String) :
    lookupRoom (delRoom reg room) room = none := by
  induction reg with
  | nil => simp [delRoom, lookupRoom]
  | cons p ps ih =>
    by_cases h : p.1 = room <;> simp [delRoom, lookupRoom, h, ih]

theorem lookupRoom_delRoom_other (reg : Registry) (room room2 : String)
    (h : room2 ≠ room) :
    lookupRoom (delRoom reg room) room2 = lookupRoom reg room2 := by
  induction reg with
  | nil => simp [delRoom, lookupRoom]
  | cons p ps ih =>
    by_cases hp : p.1 = room
    · subst hp
      simp [delRoom, lookupRoom, Ne.symm h, ih]
    · by_cases hp2 : p.1 = room2 <;> simp [delRoom, lookupRoom, hp, hp2, h, ih]

/-- After `connect`, the websocket is a member of the room. -/
theorem connect_mem (reg : Registry) (room uid : String) (ws : Nat) :
    ∃ ms, lookupRoom (connect reg room uid ws) room = some ms ∧
      ms.any (fun e => e.ws == ws) = true := by
  unfold connect
  by_cases hc : containsRoom reg room
  · obtain ⟨ms0, hms0⟩ : ∃ ms0, lookupRoom reg room = some ms0 := by
      unfold containsRoom at hc
      cases h : lookupRoom reg room with
      | none => rw [h] at hc; simp at hc
      | some v => exact ⟨v, rfl⟩
    by_cases hin : ms0.any (fun e => e.ws == ws) = true
    · exact ⟨ms0, by simp [hc, hms0, hin]⟩
    · refine ⟨ms0 ++ [⟨uid, ws⟩], ?_, ?_⟩
      · simp [hc, hms0, hin, lookupRoom_setRoom_self]
      · simp
  · refine ⟨[⟨uid, ws⟩], ?_, ?_⟩
    · simp [hc, lookupRoom_setRoom_self]
    · simp

/-- If the websocket is already a member of the room, `connect` is the
identity on the registry (the early-return branch). -/
theorem connect_of_mem (reg : Registry) (room uid : String) (ws : Nat)
    (ms : List Entry) (hms : lookupRoom reg room = some ms)
    (hany : ms.any (fun e => e.ws == ws) = true) :
    connect reg room uid ws = reg := by
  have hc : containsRoom reg room = true := by simp [containsRoom, hms]
  simp [connect, hc, hms, hany]

/-- C7: joining the same live session object (websocket) to the same
room a second time is a no-op: the registry — in particular the
member list and member count of the room — is exactly the state after one join. -/
theorem connect_connect_self (reg : Registry) (room uid : String) (ws : Nat) :
    connect (connect reg room uid ws) room uid ws = connect reg room uid ws := by
  obtain ⟨ms, hms, hany⟩ := connect_mem reg room uid ws
  exact connect_of_mem _ _ _ _ ms hms hany

theorem setRoom_setRoom (reg : Registry) (room : String) (a b : List Entry) :
    setRoom (setRoom reg room a) room b = setRoom reg room b := by
  induction reg with
  | nil => simp [setRoom]
  | cons p ps ih =>
    by_cases h : p.1 = room <;> simp [setRoom, h, ih]

/-- Pointwise effect of `disconnect` on the member list of a room (with the
missing-room case read as the empty list). -/
theorem lookupD_disconnect (reg : Registry) (ws : Nat) (room : String) :
    (lookupRoom (disconnect reg ws room) room).getD [] =
      ((lookupRoom reg room).getD []).filter (fun e => e.ws != ws) := by
  unfold disconnect
  cases hms : lookupRoom reg room with
  | none => simp [hms]
  | some ms =>
    by_cases he : (ms.filter (fun e => e.ws != ws)).isEmpty
    · have : ms.filter (fun e => e.ws != ws) = [] := by
        simpa [List.isEmpty_iff] using he
      simp [he, lookupRoom_delRoom_self, this]
    · simp [he, lookupRoom_setRoom_self]

theorem lookupD_foldl_disconnect (room : String) (l : List Nat) :
    ∀ reg : Registry,
      (lookupRoom (l.foldl (fun r w => disconnect r w room) reg) room).getD [] =
        ((lookupRoom reg room).getD []).filter (fun e => !(l.contains e.ws)) := by
  induction l with
  | nil => intro reg; simp
  | cons w l ih =>
    intro reg
    rw [List.foldl_cons, ih, lookupD_disconnect, List.filter_filter]
    congr 1
    funext e
    by_cases h : e.ws = w <;> simp [h, List.contains_cons]

theorem setRoom_noEmptyRooms (reg : Registry) (room : String) (ms : List Entry)
    (hreg : noEmptyRooms reg) (hms : ms ≠ []) :
    noEmptyRooms (setRoom reg room ms) := by
  induction reg with
  | nil =>
    intro p hp
    simp [setRoom] at hp
    simp [hp, hms]
  | cons q qs ih =>
    have hqs : noEmptyRooms qs := fun p hp => hreg p (List.mem_cons_of_mem q hp)
    intro p hp
    by_cases h : q.1 = room
    · simp [setRoom, h] at hp
      rcases hp with hp | hp
      · simp [hp, hms]
      · exact hreg p (List.mem_cons_of_mem q hp)
    · simp [setRoom, h] at hp
      rcases hp with hp | hp
      · exact hreg p (by simp [hp])
      · exact ih hqs p hp

theorem delRoom_noEmptyRooms (reg : Registry) (room : String)
    (hreg : noEmptyRooms reg) : noEmptyRooms (delRoom reg room) := by
  induction reg with
  | nil => intro p hp; simp [delRoom] at hp
  | cons q qs ih =>
    have hqs : noEmptyRooms qs := fun p hp => hreg p (List.mem_cons_of_mem q hp)
    intro p hp
    by_cases h : q.1 = room
    · exact ih hqs p (by simpa [delRoom, h] using hp)
    · simp [delRoom, h] at hp
      rcases hp with hp | hp
      · exact hreg p (by simp [hp])
      · exact ih hqs p hp

theorem connect_noEmptyRooms (reg : Registry) (room uid : String) (ws : Nat)
    (hreg : noEmptyRooms reg) : noEmptyRooms (connect reg room uid ws) := by
  unfold connect
  by_cases hc : containsRoom reg room
  · cases hms : lookupRoom reg room with
    | none => simp [containsRoom, hms] at hc
    | some ms =>
      by_cases hany : ms.any (fun e => e.ws == ws) = true
      · simpa [hc, hms, hany] using hreg
      · have : noEmptyRooms (setRoom reg room (ms ++ [⟨uid, ws⟩])) :=
          setRoom_noEmptyRooms reg room _ hreg (by simp)
        simpa [hc, hms, hany] using this
  · have h1 : lookupRoom (setRoom reg room []) room = some [] :=
      lookupRoom_setRoom_self reg room []
    have : noEmptyRooms (setRoom reg room [⟨uid, ws⟩]) :=
      setRoom_noEmptyRooms reg room _ hreg (by simp)
    simpa [hc, h1, setRoom_setRoom] using this

theorem disconnect_noEmptyRooms (reg : Registry) (ws : Nat) (room : String)
    (hreg : noEmptyRooms reg) : noEmptyRooms (disconnect reg ws room) := by
  unfold disconnect
  cases hms : lookupRoom reg room with
  | none => simpa using hreg
  | some ms =>
    by_cases he : (ms.filter (fun e => e.ws != ws)).isEmpty
    · simpa [he] using delRoom_noEmptyRooms reg room hreg
    · have hne : ms.filter (fun e => e.ws != ws) ≠ [] := by
        simpa [List.isEmpty_iff] using he
      simpa [he] using setRoom_noEmptyRooms reg room _ hreg hne

theorem foldl_disconnect_noEmptyRooms (room : String) (l : List Nat) :
    ∀ reg : Registry, noEmptyRooms reg →
      noEmptyRooms (l.foldl (fun r w => disconnect r w room) reg) := by
  induction l with
  | nil => intro reg h; simpa using h
  | cons w l ih =>
    intro reg h
    rw [List.foldl_cons]
    exact ih _ (disconnect_noEmptyRooms reg w room h)

theorem broadcast_noEmptyRooms (reg : Registry) (room : String)
    (failing : Nat → Bool) (hreg : noEmptyRooms reg) :
    noEmptyRooms ((broadcast reg room failing).2.1) := by
  unfold broadcast
  cases hms : lookupRoom reg room with
  | none => simpa using hreg
  | some ms => simpa using foldl_disconnect_noEmptyRooms room _ reg hreg

theorem reachable_noEmptyRooms (reg : Registry) (h : Reachable reg) :
    noEmptyRooms reg := by
  induction h with
  | init => intro p hp; simp at hp
  | step_connect room uid ws _ ih => exact connect_noEmptyRooms _ room uid ws ih
  | step_disconnect ws room _ ih => exact disconnect_noEmptyRooms _ ws room ih
  | step_broadcast room failing _ ih => exact broadcast_noEmptyRooms _ room failing ih

/-- C8: `disconnect` removes exactly the entries carrying the target
websocket from the target room (other rooms are untouched), deleting
the room key when its member list becomes empty; and in every
registry state reachable through the `ConnectionManager` operations,
a room key is present only while its member list is non-empty. -/
theorem disconnect_spec :
    (∀ (reg : Registry) (ws : Nat) (room room2 : String),
      lookupRoom (disconnect reg ws room) room2 =
        if room2 = room then
          match lookupRoom reg room with
          | none => none
          | some ms =>
            if (ms.filter (fun e => e.ws != ws)).isEmpty then none
            else some (ms.filter (fun e => e.ws != ws))
        else lookupRoom reg room2) ∧
    (∀ reg : Registry, Reachable reg → ∀ p ∈ reg, p.2 ≠ []) := by
  constructor
  · intro reg ws room room2
    by_cases hr : room2 = room
    · subst hr
      unfold disconnect
      cases hms : lookupRoom reg room2 with
      | none => simp [hms]
      | some ms =>
        by_cases he : (ms.filter (fun e => e.ws != ws)).isEmpty
        · simp [he, lookupRoom_delRoom_self]
        · simp [he, lookupRoom_setRoom_self]
    · unfold disconnect
      cases hms : lookupRoom reg room with
      | none => simp [hr]
      | some ms =>
        by_cases he : (ms.filter (fun e => e.ws != ws)).isEmpty
        · simp [he, hr, lookupRoom_delRoom_other reg room room2 hr]
        · simp [he, hr, lookupRoom_setRoom_other reg room room2 _ hr]
  · exact fun reg h => reachable_noEmptyRooms reg h

/-- Witness for `disconnect_spec` at concrete inputs: the last leave
prunes the room key, and a concrete reachable state has no empty room. -/
theorem disconnect_spec_witness :
    lookupRoom (disconnect [("r", [⟨"u", 1⟩])] 1 "r") "r" = none ∧
    ([⟨"u", 1⟩] : List Entry) ≠ [] := by
  constructor
  · have h := disconnect_spec.1 [("r", [⟨"u", 1⟩])] 1 "r" "r"
    simpa [lookupRoom] using h
  · exact disconnect_spec.2 (connect [] "r" "u" 1)
      (Reachable.step_connect "r" "u" 1 Reachable.init)
      ("r", [⟨"u", 1⟩])
      (by simp [connect, containsRoom, lookupRoom, setRoom])

/-- C4 (amended): when sends to some members of a room fail, `broadcast`
still delivers the payload to exactly the members whose send succeeds
(the other N−1 when a single member fails), and every failed member is
absent from the room afterwards; but the Python function returns `None`
(it has no `return` statement), not a delivered count. -/
theorem broadcast_spec (reg : Registry) (room : String) (failing : Nat → Bool)
    (ms : List Entry) (hms : lookupRoom reg room = some ms) :
    (broadcast reg room failing).1 = none ∧
    (broadcast reg room failing).2.2 =
      (ms.filter (fun e => !(failing e.ws))).map (·.ws) ∧
    ∀ e ∈ ms, failing e.ws = true →
      ∀ e2 ∈ (lookupRoom ((broadcast reg room failing).2.1) room).getD [],
        e2.ws ≠ e.ws := by
  refine ⟨?_, ?_, ?_⟩
  · unfold broadcast; simp [hms]
  · unfold broadcast; simp [hms]
  · intro e he hfail e2 he2
    have hmem : ((broadcast reg room failing).2.1) =
        ((ms.filter (fun x => failing x.ws)).map (·.ws)).foldl
          (fun r w => disconnect r w room) reg := by
      unfold broadcast; simp [hms]
    rw [hmem, lookupD_foldl_disconnect] at he2
    have h2 := List.of_mem_filter he2
    simp at h2
    intro hEq
    exact h2 e he hfail hEq.symm

/-- Witness for `broadcast_spec`: a three-member room where the send to
websocket 2 fails; the payload reaches websockets 1 and 3 and the
failed member is gone afterwards. -/
theorem broadcast_spec_witness :
    (broadcast [("r", [⟨"a", 1⟩, ⟨"b", 2⟩, ⟨"c", 3⟩])] "r" (fun w => w == 2)).1 = none ∧
    (broadcast [("r", [⟨"a", 1⟩, ⟨"b", 2⟩, ⟨"c", 3⟩])] "r" (fun w => w == 2)).2.2 =
      (([⟨"a", 1⟩, ⟨"b", 2⟩, ⟨"c", 3⟩] : List Entry).filter
        (fun e => !((fun w => w == 2) e.ws))).map (·.ws) ∧
    ∀ e ∈ ([⟨"a", 1⟩, ⟨"b", 2⟩, ⟨"c", 3⟩] : List Entry), (fun w => w == 2) e.ws = true →
      ∀ e2 ∈ (lookupRoom ((broadcast [("r", [⟨"a", 1⟩, ⟨"b", 2⟩, ⟨"c", 3⟩])] "r"
          (fun w => w == 2)).2.1) "r").getD [],
        e2.ws ≠ e.ws :=
  broadcast_spec [("r", [⟨"a", 1⟩, ⟨"b", 2⟩, ⟨"c", 3⟩])] "r" (fun w => w == 2)
    [⟨"a", 1⟩, ⟨"b", 2⟩, ⟨"c", 3⟩] (by simp [lookupRoom])

/-- Counterexample to C4 as stated: in a three-member room where the
send to websocket 2 fails, two sends succeed, yet `broadcast` does not
return the delivered count 2 — it returns `None`. -/
theorem broadcast_returns_no_count :
    (broadcast [("r", [⟨"a", 1⟩, ⟨"b", 2⟩, ⟨"c", 3⟩])] "r" (fun w => w == 2)).2.2.length = 2 ∧
    (broadcast [("r", [⟨"a", 1⟩, ⟨"b", 2⟩, ⟨"c", 3⟩])] "r" (fun w => w == 2)).1 ≠ some 2 := by
  constructor
  · simp [broadcast, lookupRoom]
  · simp [broadcast, lookupRoom]

theorem lexLt_asymm : ∀ a b : List Char, lexLt a b = true → lexLt b a = false := by
  intro a
  induction a with
  | nil => intro b h; cases b <;> simp [lexLt] at h ⊢
  | cons x xs ih =>
    intro b h
    cases b with
    | nil => simp [lexLt] at h
    | cons y ys =>
      simp only [lexLt] at h ⊢
      by_cases hxy : x < y
      · simp [hxy, lt_asymm hxy]
      · by_cases hyx : y < x
        · simp [hxy, hyx] at h
        · simp [hxy, hyx] at h ⊢
          exact ih ys h

theorem lexLt_conn : ∀ a b : List Char, lexLt a b = false → lexLt b a = false → a = b := by
  intro a
  induction a with
  | nil =>
    intro b h1 _
    cases b with
    | nil => rfl
    | cons y ys => simp [lexLt] at h1
  | cons x xs ih =>
    intro b h1 h2
    cases b with
    | nil => simp [lexLt] at h2
    | cons y ys =>
      simp only [lexLt] at h1 h2
      by_cases hxy : x < y
      · simp [hxy] at h1
      · by_cases hyx : y < x
        · simp [hyx, hxy] at h2
        · have hx : x = y := le_antisymm (not_lt.1 hyx) (not_lt.1 hxy)
          subst hx
          simp [hxy, hyx] at h1 h2
          rw [ih ys h1 h2]

/-- The sorted pair `(pyMin a b, pyMax a b)` is `(a, b)` or `(b, a)`. -/
theorem pyMin_pyMax_cases (a b : List Char) :
    (pyMin a b = a ∧ pyMax a b = b) ∨ (pyMin a b = b ∧ pyMax a b = a) := by
  unfold pyMin pyMax
  by_cases hba : lexLt b a = true
  · right
    have hab : lexLt a b = false := lexLt_asymm b a hba
    simp [hba, hab]
  · simp at hba
    by_cases hab : lexLt a b = true
    · left; simp [hba, hab]
    · simp at hab
      have : a = b := lexLt_conn a b hab hba
      subst this
      simp [hba, hab]

/-- Splitting at a delimiter that occurs in neither left part is
unambiguous. -/
theorem append_delim_inj (c : Char) :
    ∀ x x' y y' : List Char, c ∉ x → c ∉ x' →
      x ++ c :: y = x' ++ c :: y' → x = x' ∧ y = y' := by
  intro x
  induction x with
  | nil =>
    intro x' y y' _ hx2 h
    cases x' with
    | nil => simpa using h
    | cons d ds =>
      simp only [List.nil_append, List.cons_append, List.cons.injEq] at h
      exact absurd (by simp [h.1]) hx2
  | cons d ds ih =>
    intro x' y y' hx1 hx2 h
    cases x' with
    | nil =>
      simp only [List.nil_append, List.cons_append, List.cons.injEq] at h
      exact absurd (by simp [h.1]) hx1
    | cons d2 ds2 =>
      simp only [List.cons_append, List.cons.injEq] at h
      obtain ⟨hd, ht⟩ := h
      have hx1t : c ∉ ds := fun hmem => hx1 (List.mem_cons_of_mem d hmem)
      have hx2t : c ∉ ds2 := fun hmem => hx2 (List.mem_cons_of_mem d2 hmem)
      obtain ⟨he, hy⟩ := ih ds2 y y' hx1t hx2t ht
      exact ⟨by rw [hd, he], hy⟩

/-- C3: the room key of `chat.py` line 126 is order-independent in the
two participant ids, and — provided ids cannot contain the `:`
delimiter — two distinct unordered id pairs never produce the same
room key. -/
theorem roomKey_spec (a b c d : List Char)
    (ha : ':' ∉ a) (hb : ':' ∉ b) (hc : ':' ∉ c) (hd : ':' ∉ d) :
    roomKey a b = roomKey b a ∧
    (roomKey a b = roomKey c d → (a = c ∧ b = d) ∨ (a = d ∧ b = c)) := by
  constructor
  · unfold roomKey pyMin pyMax
    by_cases hba : lexLt b a = true
    · have hab : lexLt a b = false := lexLt_asymm b a hba
      simp [hba, hab]
    · simp at hba
      by_cases hab : lexLt a b = true
      · simp [hba, hab]
      · simp at hab
        have : a = b := lexLt_conn a b hab hba
        subst this
        simp
  · intro h
    unfold roomKey at h
    have h' : "private:".toList ++ (pyMin a b ++ ':' :: pyMax a b) =
        "private:".toList ++ (pyMin c d ++ ':' :: pyMax c d) := by
      simpa [List.append_assoc] using h
    have h2 : pyMin a b ++ ':' :: pyMax a b = pyMin c d ++ ':' :: pyMax c d :=
      List.append_cancel_left h'
    have hmab : ':' ∉ pyMin a b := by
      unfold pyMin; by_cases hba : lexLt b a = true <;> simp [hba, ha, hb]
    have hmcd : ':' ∉ pyMin c d := by
      unfold pyMin; by_cases hdc : lexLt d c = true <;> simp [hdc, hc, hd]
    obtain ⟨hmin, hmax⟩ :=
      append_delim_inj ':' (pyMin a b) (pyMin c d) (pyMax a b) (pyMax c d) hmab hmcd h2
    rcases pyMin_pyMax_cases a b with ⟨h1, h2'⟩ | ⟨h1, h2'⟩ <;>
      rcases pyMin_pyMax_cases c d with ⟨h3, h4⟩ | ⟨h3, h4⟩
    · exact Or.inl ⟨h1.symm.trans (hmin.trans h3), h2'.symm.trans (hmax.trans h4)⟩
    · exact Or.inr ⟨h1.symm.trans (hmin.trans h3), h2'.symm.trans (hmax.trans h4)⟩
    · exact Or.inr ⟨h2'.symm.trans (hmax.trans h4), h1.symm.trans (hmin.trans h3)⟩
    · exact Or.inl ⟨h2'.symm.trans (hmax.trans h4), h1.symm.trans (hmin.trans h3)⟩

/-- Witness for `roomKey_spec` at concrete colon-free ids. -/
theorem roomKey_spec_witness :
    roomKey "u1".toList "u2".toList = roomKey "u2".toList "u1".toList ∧
    (roomKey "u1".toList "u2".toList = roomKey "u1".toList "u3".toList →
      ("u1".toList = "u1".toList ∧ "u2".toList = "u3".toList) ∨
      ("u1".toList = "u3".toList ∧ "u2".toList = "u1".toList)) :=
  roomKey_spec "u1".toList "u2".toList "u1".toList "u3".toList
    (by decide) (by decide) (by decide) (by decide)

/-- C2: once the credential is decoded and both users are resolved,
the session-establishment gate admits the connection if and only if a
friendship record with status `accepted` exists between the two ids in
either orientation; with no such record it reports not-friends and
leaves the registry untouched (no room is registered). -/
theorem gate_spec (username friendUsername : String) (users : List UserRec)
    (recs : List Friendship) (reg : Registry) (ws : Nat) (user friend : UserRec)
    (hu : findUser users username = some user)
    (hf : findUser users friendUsername = some friend) :
    ((∃ room,
        (establishSession (some username) users recs friendUsername reg ws).1 =
          .admitted room) ↔
      friendshipAccepted recs user.id friend.id = true) ∧
    (friendshipAccepted recs user.id friend.id = false →
      (establishSession (some username) users recs friendUsername reg ws).1 =
        .notFriends ∧
      (establishSession (some username) users recs friendUsername reg ws).2 = reg) ∧
    (friendshipAccepted recs user.id friend.id = true ↔
      ∃ r ∈ recs,
        (r.user_id = user.id ∧ r.friend_id = friend.id ∧ r.status = "accepted") ∨
        (r.user_id = friend.id ∧ r.friend_id = user.id ∧ r.status = "accepted")) := by
  refine ⟨?_, ?_, ?_⟩
  · by_cases hacc : friendshipAccepted recs user.id friend.id = true
    · simp [establishSession, hu, hf, hacc]
    · simp only [Bool.not_eq_true] at hacc
      simp [establishSession, hu, hf, hacc]
  · intro hacc
    simp [establishSession, hu, hf, hacc]
  · unfold friendshipAccepted
    rw [List.any_eq_true]
    constructor
    · rintro ⟨r, hr, hcond⟩
      refine ⟨r, hr, ?_⟩
      simp only [Bool.or_eq_true, Bool.and_eq_true, beq_iff_eq] at hcond
      rcases hcond with ⟨⟨h1, h2⟩, h3⟩ | ⟨⟨h1, h2⟩, h3⟩
      · exact Or.inl ⟨h1, h2, h3⟩
      · exact Or.inr ⟨h1, h2, h3⟩
    · rintro ⟨r, hr, hcond⟩
      refine ⟨r, hr, ?_⟩
      simp only [Bool.or_eq_true, Bool.and_eq_true, beq_iff_eq]
      rcases hcond with ⟨h1, h2, h3⟩ | ⟨h1, h2, h3⟩
      · exact Or.inl ⟨⟨h1, h2⟩, h3⟩
      · exact Or.inr ⟨⟨h1, h2⟩, h3⟩

/-- Witness for `gate_spec`: two resolved users with an accepted
friendship row recorded in the reverse orientation. -/
theorem gate_spec_witness :
    ((∃ room,
        (establishSession (some "alice")
          [⟨"alice", "a1"⟩, ⟨"bob", "b1"⟩]
          [⟨"b1", "a1", "accepted"⟩] "bob" [] 7).1 = .admitted room) ↔
      friendshipAccepted [⟨"b1", "a1", "accepted"⟩] "a1" "b1" = true) ∧
    (friendshipAccepted [⟨"b1", "a1", "accepted"⟩] "a1" "b1" = false →
      (establishSession (some "alice")
        [⟨"alice", "a1"⟩, ⟨"bob", "b1"⟩]
        [⟨"b1", "a1", "accepted"⟩] "bob" [] 7).1 = .notFriends ∧
      (establishSession (some "alice")
        [⟨"alice", "a1"⟩, ⟨"bob", "b1"⟩]
        [⟨"b1", "a1", "accepted"⟩] "bob" [] 7).2 = []) ∧
    (friendshipAccepted [⟨"b1", "a1", "accepted"⟩] "a1" "b1" = true ↔
      ∃ r ∈ ([⟨"b1", "a1", "accepted"⟩] : List Friendship),
        (r.user_id = "a1" ∧ r.friend_id = "b1" ∧ r.status = "accepted") ∨
        (r.user_id = "b1" ∧ r.friend_id = "a1" ∧ r.status = "accepted")) :=
  gate_spec "alice" "bob" [⟨"alice", "a1"⟩, ⟨"bob", "b1"⟩]
    [⟨"b1", "a1", "accepted"⟩] [] 7 ⟨"alice", "a1"⟩ ⟨"bob", "b1"⟩
    (by simp [findUser]) (by simp [findUser])

/-- C1: persist-then-publish. Wherever a publish of a message body
appears in the effect trace of the receive loop, the completed insert
of that same body appears strictly before it; no message is ever
published without having been persisted first. -/
theorem receiveStep_cases (f : Frame) :
    receiveStep f = ([], false) ∨
    receiveStep f = ([Ev.persistMsg f.content], false) ∨
    receiveStep f = ([Ev.persistMsg f.content, Ev.publishMsg f.content], true) := by
  unfold receiveStep
  split_ifs <;> simp

theorem persist_before_publish (fs : List Frame) :
    ∀ l1 l2 : List Ev, ∀ c : String,
      receiveLoop fs = l1 ++ Ev.publishMsg c :: l2 → Ev.persistMsg c ∈ l1 := by
  induction fs with
  | nil =>
    intro l1 l2 c h
    rw [receiveLoop] at h
    exact absurd h.symm (List.append_ne_nil_of_right_ne_nil l1 (by simp))
  | cons f fs ih =>
    intro l1 l2 c h
    rw [receiveLoop] at h
    rcases receiveStep_cases f with h0 | h0 | h0 <;> rw [h0] at h
    · rw [if_neg (by simp)] at h
      exact absurd h.symm (List.append_ne_nil_of_right_ne_nil l1 (by simp))
    · rw [if_neg (by simp)] at h
      cases l1 with
      | nil => simp at h
      | cons x l1 =>
        simp only [List.cons_append, List.cons.injEq] at h
        exact absurd h.2.symm (List.append_ne_nil_of_right_ne_nil l1 (by simp))
    · rw [if_pos (by simp)] at h
      simp only [List.cons_append, List.nil_append] at h
      cases l1 with
      | nil => simp at h
      | cons x l1 =>
        simp only [List.cons_append, List.cons.injEq] at h
        obtain ⟨hx, ht⟩ := h
        cases l1 with
        | nil =>
          simp only [List.nil_append, List.cons.injEq] at ht
          obtain ⟨hc, _⟩ := ht
          have hc2 : f.content = c := by injection hc
          subst hc2
          simp [hx]
        | cons y l1 =>
          simp only [List.cons_append, List.cons.injEq] at ht
          have := ih l1 l2 c ht.2
          exact List.mem_cons_of_mem _ (List.mem_cons_of_mem _ this)

/-- Witness for `persist_before_publish`: a single successful frame
whose trace is insert followed by publish. -/
theorem persist_before_publish_witness :
    Ev.persistMsg "hi" ∈ [Ev.persistMsg "hi"] :=
  persist_before_publish [⟨false, true, "hi", true, true⟩]
    [Ev.persistMsg "hi"] [] "hi" (by decide)

/-- C5 (amended): a frame whose content violates the 1..2000 length
bound, or whose insert fails, is neither persisted nor published; but
the catch-all `except` arm breaks the `while` loop, so the inbound
duty terminates instead of staying available for subsequent valid
frames. -/
theorem invalid_frame_dropped (f : Frame) (fs : List Frame)
    (hd : f.disconnected = false) (hp : f.parseOk = true)
    (h : validLength f.content = false ∨ f.insertOk = false) :
    receiveStep f = ([], false) ∧ receiveLoop (f :: fs) = [] := by
  have hstep : receiveStep f = ([], false) := by
    unfold receiveStep
    rcases h with h | h
    · simp [hd, hp, h]
    · by_cases hv : validLength f.content = true <;> simp [hd, hp, hv, h]
  refine ⟨hstep, ?_⟩
  rw [receiveLoop, hstep]
  simp

/-- Witness for `invalid_frame_dropped`: an empty body (length 0,
rejected by the validator) followed by a well-formed frame. -/
theorem invalid_frame_dropped_witness :
    receiveStep ⟨false, true, "", true, true⟩ = ([], false) ∧
    receiveLoop [⟨false, true, "", true, true⟩, ⟨false, true, "hi", true, true⟩] = [] :=
  invalid_frame_dropped ⟨false, true, "", true, true⟩
    [⟨false, true, "hi", true, true⟩] rfl rfl (Or.inl (by decide))

/-- Counterexample to C5 as stated: after a frame with an invalid
(empty) body the session does not remain able to process subsequent
valid frames — the trace of the receive loop over the invalid frame
followed by a valid frame is empty, although the second frame alone
would be persisted and published. -/
theorem invalid_frame_kills_session :
    receiveLoop [⟨false, true, "", true, true⟩, ⟨false, true, "hi", true, true⟩] = [] ∧
    receiveStep ⟨false, true, "hi", true, true⟩ =
      ([Ev.persistMsg "hi", Ev.publishMsg "hi"], true) := by
  constructor
  · rfl
  · rfl

/-- C6 (amended): teardown is driven by the end of the `try` body, not
by a single duty ending. While a duty is still alive no teardown code
runs at all; when the body ends, the `finally` arm unsubscribes from
the topic and closes the pub/sub connection exactly once on every
path; but the Registry leave runs only when an exception escapes the
`try` body — after both duties end by breaking out of their loops,
room membership is not released. -/
theorem handlerTeardown_spec (o : TryOutcome) :
    handlerTeardown .stillRunning = [] ∧
    (o ≠ .stillRunning →
      (handlerTeardown o).count .unsubscribeTopic = 1 ∧
      (handlerTeardown o).count .closePubsub = 1) ∧
    (handlerTeardown o).count .leaveRoom ≤ 1 ∧
    (TAction.leaveRoom ∈ handlerTeardown o ↔
      o = .wsDisconnectRaised ∨ o = .otherExceptionRaised) := by
  cases o <;> simp [handlerTeardown, List.count_cons, List.count_nil]

/-- Witness for `handlerTeardown_spec` at the normal-completion
outcome. -/
theorem handlerTeardown_spec_witness :
    handlerTeardown .stillRunning = [] ∧
    (TryOutcome.bothLoopsBroke ≠ TryOutcome.stillRunning →
      (handlerTeardown .bothLoopsBroke).count .unsubscribeTopic = 1 ∧
      (handlerTeardown .bothLoopsBroke).count .closePubsub = 1) ∧
    (handlerTeardown .bothLoopsBroke).count .leaveRoom ≤ 1 ∧
    (TAction.leaveRoom ∈ handlerTeardown .bothLoopsBroke ↔
      TryOutcome.bothLoopsBroke = TryOutcome.wsDisconnectRaised ∨
      TryOutcome.bothLoopsBroke = TryOutcome.otherExceptionRaised) :=
  handlerTeardown_spec .bothLoopsBroke

/-- Counterexample to C6 as stated: the inbound duty ends on a
transport close (its step breaks), yet while the outbound duty is
still alive the handler runs no teardown at all; and even when both
duties have ended, the teardown that runs never leaves the Registry
room. -/
theorem teardown_missing_on_normal_end :
    (receiveStep ⟨true, true, "x", true, true⟩).2 = false ∧
    handlerTeardown .stillRunning = [] ∧
    TAction.leaveRoom ∉ handlerTeardown .bothLoopsBroke := by
  refine ⟨rfl, rfl, ?_⟩
  simp [handlerTeardown]

theorem markRead_created_at (uid : String) (m : StoredMessage) :
    (markRead uid m).created_at = m.created_at := by
  unfold markRead
  by_cases hb : (m.receiver_id == uid && !m.read) = true <;> simp [hb]

theorem betweenUsers_markRead (uid a b : String) (m : StoredMessage) :
    betweenUsers (markRead uid m) a b = betweenUsers m a b := by
  unfold markRead betweenUsers
  by_cases hb : (m.receiver_id == uid && !m.read) = true <;> simp [hb]

theorem markRead_idem (uid : String) (m : StoredMessage) :
    markRead uid (markRead uid m) = markRead uid m := by
  unfold markRead
  by_cases hb : (m.receiver_id == uid && !m.read) = true
  · rw [if_pos hb]
    simp
  · rw [if_neg hb, if_neg hb]

theorem markRead_read (uid : String) (m : StoredMessage)
    (h : (markRead uid m).receiver_id = uid) : (markRead uid m).read = true := by
  unfold markRead at h ⊢
  by_cases hb : (m.receiver_id == uid && !m.read) = true
  · simp [hb]
  · rw [if_neg hb] at h ⊢
    simp only [Bool.and_eq_true, beq_iff_eq, Bool.not_eq_true'] at hb
    cases hm : m.read with
    | false => exact absurd ⟨h, hm⟩ hb
    | true => rfl

/-- C9: `get_conversation` returns exactly the messages of the
conversation between caller and friend, sorted by creation time oldest
first, each with the read mark applied; every returned message
addressed to the caller is read; and retrieving again changes nothing
in the store — the read flag transitions false→true at most once, on
first retrieval by the receiver. -/
theorem getConversation_spec (c f : String) (store : List StoredMessage) :
    List.Sorted (fun x y => x.created_at ≤ y.created_at)
      (getConversation c f store).1 ∧
    (getConversation c f store).1.Perm
      ((store.filter (fun m => betweenUsers m c f)).map (markRead c)) ∧
    (∀ m ∈ (getConversation c f store).1, m.receiver_id = c → m.read = true) ∧
    (getConversation c f (getConversation c f store).2).2 =
      (getConversation c f store).2 := by
  refine ⟨?_, ?_, ?_, ?_⟩
  · have hs1 : List.Sorted (fun x y : StoredMessage => x.created_at ≤ y.created_at)
        (List.insertionSort (fun x y => x.created_at ≤ y.created_at)
          (store.filter (fun m => betweenUsers m c f))) :=
      List.sorted_insertionSort _ _
    simp only [getConversation]
    exact List.Pairwise.map _
      (fun a b h => by rw [markRead_created_at, markRead_created_at]; exact h) hs1
  · simp only [getConversation]
    exact List.Perm.map (markRead c)
      (List.perm_insertionSort (fun x y : StoredMessage => x.created_at ≤ y.created_at)
        (store.filter (fun m => betweenUsers m c f)))
  · simp only [getConversation]
    intro m hm hrc
    obtain ⟨m0, _, hm0⟩ := List.mem_map.mp hm
    rw [← hm0] at hrc ⊢
    exact markRead_read c m0 hrc
  · simp only [getConversation, List.map_map]
    apply List.map_congr_left
    intro m _
    simp only [Function.comp_apply]
    by_cases hb : betweenUsers m c f = true
    · simp [hb, betweenUsers_markRead, markRead_idem]
    · simp only [Bool.not_eq_true] at hb
      simp [hb]

/-- Witness for `getConversation_spec`: one unread message addressed
to the caller is returned read, and a second retrieval leaves the
store unchanged. -/
theorem getConversation_spec_witness :
    (⟨1, "f1", "frank", "c1", "carol", "hi", 10, true⟩ : StoredMessage).read = true ∧
    (getConversation "c1" "f1"
        (getConversation "c1" "f1"
          [⟨1, "f1", "frank", "c1", "carol", "hi", 10, false⟩]).2).2 =
      (getConversation "c1" "f1"
        [⟨1, "f1", "frank", "c1", "carol", "hi", 10, false⟩]).2 :=
  ⟨(getConversation_spec "c1" "f1"
      [⟨1, "f1", "frank", "c1", "carol", "hi", 10, false⟩]).2.2.1
      ⟨1, "f1", "frank", "c1", "carol", "hi", 10, true⟩ (by decide) rfl,
   (getConversation_spec "c1" "f1"
      [⟨1, "f1", "frank", "c1", "carol", "hi", 10, false⟩]).2.2.2⟩

/-- C10: history retrieval changes only the read flag of messages
addressed to the caller. The hypothesis is the store invariant that no
message has equal sender and receiver ids — the API refuses
self-friend-requests (`friends.py` line 31) and both message-creation
paths require an accepted friendship, so reachable stores satisfy it.
Pointwise over the store: messages sent by the caller, messages not
addressed to the caller, and messages already read are unchanged;
every field except the read flag is unchanged; and a read flag that
changes goes false→true on a message addressed to the caller. -/
theorem getConversation_frame (c f : String) (store : List StoredMessage)
    (hs : ∀ m ∈ store, m.sender_id ≠ m.receiver_id) :
    List.Forall₂ (fun m m2 =>
      (m.sender_id = c → m2 = m) ∧
      (m.receiver_id ≠ c → m2 = m) ∧
      (m.read = true → m2 = m) ∧
      m2.id = m.id ∧ m2.sender_id = m.sender_id ∧
      m2.sender_username = m.sender_username ∧
      m2.receiver_id = m.receiver_id ∧
      m2.receiver_username = m.receiver_username ∧
      m2.message = m.message ∧ m2.created_at = m.created_at ∧
      (m2.read ≠ m.read → m.receiver_id = c ∧ m.read = false ∧ m2.read = true))
      store (getConversation c f store).2 := by
  simp only [getConversation]
  rw [List.forall₂_map_right_iff, List.forall₂_same]
  intro m hm
  have hsr := hs m hm
  by_cases hb : betweenUsers m c f = true
  · rw [if_pos hb]
    unfold markRead
    by_cases hbm : (m.receiver_id == c && !m.read) = true
    · rw [if_pos hbm]
      have h2 := hbm
      simp at h2
      obtain ⟨hrc2, hread⟩ := h2
      refine ⟨?_, ?_, ?_, rfl, rfl, rfl, rfl, rfl, rfl, rfl, ?_⟩
      · intro hsc
        exact absurd (hsc.trans hrc2.symm) hsr
      · intro h
        exact absurd hrc2 h
      · intro h
        rw [h] at hread
        cases hread
      · intro _
        exact ⟨hrc2, hread, rfl⟩
    · rw [if_neg hbm]
      exact ⟨fun _ => rfl, fun _ => rfl, fun _ => rfl, rfl, rfl, rfl, rfl, rfl,
        rfl, rfl, fun h => absurd rfl h⟩
  · rw [if_neg hb]
    exact ⟨fun _ => rfl, fun _ => rfl, fun _ => rfl, rfl, rfl, rfl, rfl, rfl,
      rfl, rfl, fun h => absurd rfl h⟩

/-- Witness for `getConversation_frame` on a store satisfying the
no-self-message invariant. -/
theorem getConversation_frame_witness :
    List.Forall₂ (fun m m2 : StoredMessage =>
      (m.sender_id = "c1" → m2 = m) ∧
      (m.receiver_id ≠ "c1" → m2 = m) ∧
      (m.read = true → m2 = m) ∧
      m2.id = m.id ∧ m2.sender_id = m.sender_id ∧
      m2.sender_username = m.sender_username ∧
      m2.receiver_id = m.receiver_id ∧
      m2.receiver_username = m.receiver_username ∧
      m2.message = m.message ∧ m2.created_at = m.created_at ∧
      (m2.read ≠ m.read → m.receiver_id = "c1" ∧ m.read = false ∧ m2.read = true))
      [⟨1, "f1", "frank", "c1", "carol", "hi", 10, false⟩]
      (getConversation "c1" "f1"
        [⟨1, "f1", "frank", "c1", "carol", "hi", 10, false⟩]).2 :=
  getConversation_frame "c1" "f1"
    [⟨1, "f1", "frank", "c1", "carol", "hi", 10, false⟩] (by decide)

end NSql
